import Mathlib

/-!
Shallow embedding of `src/vinte_uno/vinte_uno.py` (the "vinte-uno" 21/blackjack
round engine) and proofs about it.

Modelling conventions:
* Python `int` is `Int`; Python strings are `String`.
* A player's hand `self.cards : Set[Card]` is a `Finset Card` (Python sets are
  unordered; wherever iteration order matters, functions take an explicit
  enumeration list whose elements are the set's elements).
* The deck's card list is a `List Card`; `random.SystemRandom().randint(0, n-1)`
  is modelled by an externally supplied index stream (`List Nat`), each draw
  using the next index reduced `% length`, which ranges over exactly the indices
  the random source can produce.
* Python exceptions are modelled by an `Err` component in results: a raised
  exception propagates, and the state at raise time is returned alongside it
  (mutated objects stay mutated, as in Python).
* The state machines use the `transitions` library with its defaults: invoking
  a trigger from a state that is not the transition's source raises
  `MachineError` (`ignore_invalid_triggers` is unset); a matching transition
  whose conditions are false is a silent no-op; when a transition fires, the
  state changes first and the `after` callbacks run afterwards.
-/

namespace VinteUno

/-- `TWENTY_ONE_RANK_POINTS = 21`. -/
def TWENTY_ONE_RANK_POINTS : Int := 21

/-- `ACE_RANK_POINTS = 11`. -/
def ACE_RANK_POINTS : Int := 11

/-- `DEALER_RANK_POINTS_LIMIT = 17`. -/
def DEALER_RANK_POINTS_LIMIT : Int := 17

def READY_TO_GAME : String := "READY_TO_GAME"

def GAMING : String := "GAMING"

def TWENTY_ONE : String := "TWENTY_ONE"

def BUSTED : String := "BUSTED"

def STAYED : String := "STAYED"

def DEAL_PENDING : String := "DEAL_PENDING"

def STARTED : String := "STARTED"

def HIDING : String := "HIDING"

def EXPOSED : String := "EXPOSED"

/-- `HIT_STATES` tuple from the source. -/
def HIT_STATES : List String := [DEAL_PENDING, READY_TO_GAME, GAMING, STARTED, EXPOSED]

/-- `Card` NamedTuple: rank, suit, weight, image. -/
structure Card where
  rank : String
  suit : String
  weight : Int
  image : String
deriving DecidableEq

/-- Python exceptions that the engine can raise. -/
inductive Err where
  /-- `ValueError("Doesn't have enough cards!")` from `Deck.pick`. -/
  | valueError : Err
  /-- `transitions.core.MachineError` from an invalid trigger. -/
  | machineError : Err
  /-- `TypeError: 'NoneType' object is not callable` from `Dealer.turn`'s dispatch. -/
  | typeError : Err
  /-- `IndexError` from `cards[0]` on an empty list in `Dealer.show`. -/
  | indexError : Err
deriving DecidableEq

namespace Cards

/-- `Cards.ranks`: the 13 (rank, weight) pairs.  The Python value is a set;
this list is one enumeration of it (all stated facts are order-independent). -/
def ranks : List (String × Int) :=
  [("ace", 1), ("2", 2), ("3", 3), ("4", 4), ("5", 5), ("6", 6), ("7", 7),
   ("8", 8), ("9", 9), ("10", 10), ("Jack", 10), ("Queen", 10), ("King", 10)]

/-- `Cards.suits`: the four suits (one enumeration of the Python set). -/
def suits : List String := ["spades", "clubs", "diamonds", "hearts"]

/-- `Cards._helper`: the 13 cards of one suit, with image `"<rank>-<suit>.png"`. -/
def helper (suit : String) : List Card :=
  ranks.map fun r => ⟨r.1, suit, r.2, r.1 ++ "-" ++ suit ++ ".png"⟩

/-- `Cards.generate`: all 52 cards, suit by suit. -/
def generate : List Card := suits.flatMap helper

end Cards

namespace Deck

/-- `Deck.__init__`: the fresh 52-card deck. -/
def new : List Card := Cards.generate

/-- `Deck.pick`, with the random index supplied externally.  `randint(0, n-1)`
always yields an in-range index; we model the drawn index as `i % n`, which
ranges over exactly the same values.  `self.cards.remove(card)` removes the
first occurrence equal to `card`, i.e. `List.erase`. -/
def pick (i : Nat) (cards : List Card) : Except Err (Card × List Card) :=
  if h : cards.length < 1 then .error .valueError
  else
    let card := cards.get ⟨i % cards.length, Nat.mod_lt _ (by omega)⟩
    .ok (card, cards.erase card)

/-- Repeatedly pick, one index per draw, stopping at the first failure:
returns the picked cards in order and the remaining deck. -/
def pickSeq : List Nat → List Card → List Card × List Card
  | [], deck => ([], deck)
  | i :: is, deck =>
    match pick i deck with
    | .error _ => ([], deck)
    | .ok (c, deck') =>
      let r := pickSeq is deck'
      (c :: r.1, r.2)

end Deck

/-- `Player.hand` property: 0 on the empty hand; otherwise the sum of weights,
promoted to `11 + (sum - 1)` when the raw sum is `ACE_RANK_POINTS` and some
card has rank `"ace"`. -/
def hand (cards : Finset Card) : Int :=
  if cards = ∅ then 0
  else
    let rank_points := cards.sum fun c => c.weight
    if rank_points = ACE_RANK_POINTS ∧ ∃ c ∈ cards, c.rank = "ace" then
      ACE_RANK_POINTS + (rank_points - 1)
    else rank_points

/-- The data of a `Player` (`Machine` model): name, machine state, hand, credit.
`amount` is never used by the engine and is omitted. -/
structure PState where
  name : String
  state : String
  cards : Finset Card
  credit : Int
deriving DecidableEq

/-- `Player.should_bust`: `hand > TWENTY_ONE_RANK_POINTS`. -/
def should_bust (p : PState) : Bool := hand p.cards > TWENTY_ONE_RANK_POINTS

/-- `Player.hit`: draw only when the state is open for dealing; the pick
consumes one index of the random stream.  A `ValueError` from an empty deck
propagates. -/
def Player.hit (p : PState) (deck : List Card) (rand : List Nat) :
    Option Err × PState × List Card × List Nat :=
  if p.state ∈ HIT_STATES then
    match Deck.pick (rand.headD 0) deck with
    | .error e => (some e, p, deck, rand.tail)
    | .ok (c, deck') => (none, { p with cards := insert c p.cards }, deck', rand.tail)
  else (none, p, deck, rand)

/-- One record of `Player.show`'s output (`{'suit': .., 'rank': .., 'weight': .., 'image': ..}`). -/
structure CardView where
  suit : String
  rank : String
  weight : Int
  image : String
deriving DecidableEq

/-- The dict built for one card in `Player.show`. -/
def Player.view (c : Card) : CardView := ⟨c.suit, c.rank, c.weight, c.image⟩

/-- `Player.show`: iterates `self.cards` (a set); `order` is the iteration
order, an arbitrary enumeration of the hand. -/
def Player.show (order : List Card) : List CardView := order.map Player.view

namespace Gambler

/-- `Gambler.should_play`: `bool(self.cards)`. -/
def should_play (g : PState) : Bool := g.cards ≠ ∅

/-- `Gambler.should_win`: `hand == TWENTY_ONE_RANK_POINTS`. -/
def should_win (g : PState) : Bool := hand g.cards = TWENTY_ONE_RANK_POINTS

/-- Trigger `play` (READY_TO_GAME → GAMING, conditions `should_play`). -/
def play (g : PState) : Option Err × PState :=
  if g.state ≠ READY_TO_GAME then (some .machineError, g)
  else if should_play g then (none, { g with state := GAMING })
  else (none, g)

/-- Trigger `win` (GAMING → TWENTY_ONE, conditions `should_win`,
after `after_win`: `credit += credit`). -/
def win (g : PState) : Option Err × PState :=
  if g.state ≠ GAMING then (some .machineError, g)
  else if should_win g then
    (none, { g with state := TWENTY_ONE, credit := g.credit + g.credit })
  else (none, g)

/-- Trigger `stay` (GAMING → STAYED, no conditions). -/
def stay (g : PState) : Option Err × PState :=
  if g.state ≠ GAMING then (some .machineError, g)
  else (none, { g with state := STAYED })

/-- Trigger `bust` (GAMING → BUSTED, conditions `should_bust`,
after `after_bust`: `credit -= credit`). -/
def bust (g : PState) : Option Err × PState :=
  if g.state ≠ GAMING then (some .machineError, g)
  else if should_bust g then
    (none, { g with state := BUSTED, credit := g.credit - g.credit })
  else (none, g)

/-- `Gambler.__init__`: initial state `READY_TO_GAME`, empty hand. -/
def init (name : String) (credit : Int := 1) : PState :=
  ⟨name, READY_TO_GAME, ∅, credit⟩

end Gambler

/-- The data of a `Dealer`: its own player fields plus the gambler roster and
the deck it owns. -/
structure Dealer where
  name : String
  state : String
  cards : Finset Card
  credit : Int
  gamblers : List PState
  deck : List Card
deriving DecidableEq

namespace Dealer

/-- `Dealer.__init__` (fresh deck, initial state `DEAL_PENDING`). -/
def init (gamblers : List PState) (name : String := "Dealer") (credit : Int := 1) : Dealer :=
  ⟨name, DEAL_PENDING, ∅, credit, gamblers, Deck.new⟩

/-- `Dealer.should_deal`: every gambler is `READY_TO_GAME`, every gambler has
cards, and the dealer has cards. -/
def should_deal (d : Dealer) : Bool :=
  (d.gamblers.all fun g => g.state = READY_TO_GAME) &&
    (d.gamblers.all fun g => g.cards ≠ ∅) && (d.cards ≠ ∅)

/-- `Dealer.after_deal`'s loop: `gambler.play()` on each roster member in
order; an exception propagates, keeping the already-applied mutations. -/
def playAll : List PState → Option Err × List PState
  | [] => (none, [])
  | g :: gs =>
    match Gambler.play g with
    | (some e, g') => (some e, g' :: gs)
    | (none, g') =>
      let r := playAll gs
      (r.1, g' :: r.2)

/-- Trigger `deal` (DEAL_PENDING → STARTED, conditions `should_deal`,
after `after_deal`). -/
def deal (d : Dealer) : Option Err × Dealer :=
  if d.state ≠ DEAL_PENDING then (some .machineError, d)
  else if should_deal d then
    let r := playAll d.gamblers
    (r.1, { d with state := STARTED, gamblers := r.2 })
  else (none, d)

/-- `Dealer.should_hide`: `len(self.cards) > 1`. -/
def should_hide (d : Dealer) : Bool := d.cards.card > 1

/-- Trigger `hide` (STARTED → HIDING, conditions `should_hide`). -/
def hide (d : Dealer) : Option Err × Dealer :=
  if d.state ≠ STARTED then (some .machineError, d)
  else if should_hide d then (none, { d with state := HIDING })
  else (none, d)

/-- `Dealer.should_expose`: no gambler is in `GAMING`. -/
def should_expose (d : Dealer) : Bool := d.gamblers.all fun g => g.state ≠ GAMING

/-- `Dealer.should_stay`: `second_condition if first_condition else third_condition`
with `first = hand >= 17`, `second = hand <= 21`, `third = no gambler STAYED`. -/
def should_stay (d : Dealer) : Bool :=
  let first_condition := hand d.cards ≥ DEALER_RANK_POINTS_LIMIT
  let second_condition := hand d.cards ≤ TWENTY_ONE_RANK_POINTS
  let third_condition := d.gamblers.all fun g => g.state ≠ STAYED
  if first_condition then second_condition else third_condition

/-- `Dealer.after_bust`: every gambler not in {BUSTED, TWENTY_ONE} gets
`credit += credit`. -/
def after_bust (d : Dealer) : Dealer :=
  { d with gamblers := d.gamblers.map fun g =>
      if g.state ≠ BUSTED ∧ g.state ≠ TWENTY_ONE then
        { g with credit := g.credit + g.credit }
      else g }

/-- Lexicographic comparison of strings as character lists (Python's `<` on
the names used as sort key). -/
def strLt : List Char → List Char → Bool
  | [], [] => false
  | [], _ :: _ => true
  | _ :: _, [] => false
  | a :: as, b :: bs => if a < b then true else if b < a then false else strLt as bs

/-- Insert into a list sorted by name, keeping existing equal names first
(stable, like Python's `list.sort`). -/
def insertByName (g : PState) : List PState → List PState
  | [] => [g]
  | x :: xs => if strLt g.name.data x.name.data then g :: x :: xs else x :: insertByName g xs

/-- `self.gamblers.sort(key=lambda element: element.name)`: a stable
insertion sort by name. -/
def sortByName (l : List PState) : List PState := l.foldr insertByName []

/-- `Dealer.after_stay`: among the STAYED gamblers find the maximum hand; each
STAYED gambler at that maximum that beats the dealer's hand gets
`credit += credit`; the roster is rebuilt (`list(set - set)` has unspecified
order, modelled by the filter of the non-stayed) and sorted by name. -/
def after_stay (d : Dealer) : Dealer :=
  let gamblers := d.gamblers.filter fun g => g.state = STAYED
  match gamblers with
  | [] => d
  | g0 :: rest =>
    let max_score := (rest.map fun g => hand g.cards).foldl max (hand g0.cards)
    let others := d.gamblers.filter fun g => ¬(g.state = STAYED)
    let paid := (g0 :: rest).map fun g =>
      if hand g.cards = max_score ∧ max_score > hand d.cards then
        { g with credit := g.credit + g.credit }
      else g
    { d with gamblers := sortByName (others ++ paid) }

/-- Trigger `bust` (EXPOSED → BUSTED, conditions `should_bust`,
after `after_bust`). -/
def bust (d : Dealer) : Option Err × Dealer :=
  if d.state ≠ EXPOSED then (some .machineError, d)
  else if should_bust ⟨d.name, d.state, d.cards, d.credit⟩ then
    (none, after_bust { d with state := BUSTED })
  else (none, d)

/-- Trigger `stay` (EXPOSED → STAYED, conditions `should_stay`,
after `after_stay`). -/
def stay (d : Dealer) : Option Err × Dealer :=
  if d.state ≠ EXPOSED then (some .machineError, d)
  else if should_stay d then (none, after_stay { d with state := STAYED })
  else (none, d)

/-- Trigger `expose` (HIDING → EXPOSED, conditions `should_expose`,
after `after_expose`, which invokes the `stay` trigger). -/
def expose (d : Dealer) : Option Err × Dealer :=
  if d.state ≠ HIDING then (some .machineError, d)
  else if should_expose d then stay { d with state := EXPOSED }
  else (none, d)

/-- The gambler loop of `Dealer._hit`, threading the dealer's credit, the deck
and the random stream: each gambler hits; a still-GAMING gambler busts on
hand > 21 or wins on hand == 21, a win additionally transferring the dealer's
whole stake to the winner. -/
def hitLoop (dcredit : Int) (deck : List Card) (rand : List Nat) :
    List PState → Option Err × List PState × Int × List Card × List Nat
  | [] => (none, [], dcredit, deck, rand)
  | g :: gs =>
    match Player.hit g deck rand with
    | (some e, g1, deck1, rand1) => (some e, g1 :: gs, dcredit, deck1, rand1)
    | (none, g1, deck1, rand1) =>
      if g1.state ≠ GAMING then
        let r := hitLoop dcredit deck1 rand1 gs
        (r.1, g1 :: r.2.1, r.2.2)
      else
        match if hand g1.cards > TWENTY_ONE_RANK_POINTS then Gambler.bust g1
            else (none, g1) with
        | (some e, g2) => (some e, g2 :: gs, dcredit, deck1, rand1)
        | (none, g2) =>
          if hand g2.cards = TWENTY_ONE_RANK_POINTS then
            match Gambler.win g2 with
            | (some e, g3) => (some e, g3 :: gs, dcredit, deck1, rand1)
            | (none, g3) =>
              let g4 := { g3 with credit := g3.credit + dcredit }
              let r := hitLoop (dcredit - dcredit) deck1 rand1 gs
              (r.1, g4 :: r.2.1, r.2.2)
          else
            let r := hitLoop dcredit deck1 rand1 gs
            (r.1, g2 :: r.2.1, r.2.2)

/-- `Dealer._hit`: the gambler loop, then the dealer's own `hit`. -/
def hit_ (d : Dealer) (rand : List Nat) : Option Err × Dealer × List Nat :=
  let r := hitLoop d.credit d.deck rand d.gamblers
  let d1 := { d with gamblers := r.2.1, credit := r.2.2.1, deck := r.2.2.2.1 }
  match r.1 with
  | some e => (some e, d1, r.2.2.2.2)
  | none =>
    let h := Player.hit ⟨d1.name, d1.state, d1.cards, d1.credit⟩ d1.deck r.2.2.2.2
    (h.1, { d1 with cards := h.2.1.cards, deck := h.2.2.1 }, h.2.2.2)

/-- `Dealer.turn`: `_hit`, then dispatch exactly one trigger on the current
state; `states.get(self.state)` yields `None` for BUSTED/STAYED and calling it
raises `TypeError`. -/
def turn (d : Dealer) (rand : List Nat) : Option Err × Dealer × List Nat :=
  match Dealer.hit_ d rand with
  | (some e, d1, rand1) => (some e, d1, rand1)
  | (none, d1, rand1) =>
    if d1.state = DEAL_PENDING then
      let r := deal d1
      (r.1, r.2, rand1)
    else if d1.state = STARTED then
      let r := hide d1
      (r.1, r.2, rand1)
    else if d1.state = HIDING then
      let r := expose d1
      (r.1, r.2, rand1)
    else if d1.state = EXPOSED then
      let r := if hand d1.cards > TWENTY_ONE_RANK_POINTS then bust d1 else stay d1
      (r.1, r.2, rand1)
    else (some .typeError, d1, rand1)

end Dealer

/-- `Dealer.show`: the base `show`, truncated to the first record of the
iteration order while HIDING (`cards[0]` raises `IndexError` on an empty
hand). -/
def Dealer.show (state : String) (order : List Card) : Except Err (List CardView) :=
  let cards := Player.show order
  if state = HIDING then
    match cards with
    | [] => .error .indexError
    | c :: _ => .ok [c]
  else .ok cards

section TestReplays

def aceSpades : Card := ⟨"ace", "spades", 1, "ace-spades.png"⟩

def aceHearts : Card := ⟨"ace", "hearts", 1, "ace-hearts.png"⟩

def nineClubs : Card := ⟨"9", "clubs", 9, "9-clubs.png"⟩

def tenSpades : Card := ⟨"10", "spades", 10, "10-spades.png"⟩

def tenHearts : Card := ⟨"10", "hearts", 10, "10-hearts.png"⟩

def twoClubs : Card := ⟨"2", "clubs", 2, "2-clubs.png"⟩

example : hand {aceSpades, tenSpades} = 21 := by decide
example : hand {aceSpades, aceHearts} = 2 := by decide
example : hand {aceSpades, aceHearts, nineClubs} = 21 := by decide
example : hand ∅ = 0 := by decide
example : Deck.new.length = 52 := by decide

/-- The scripted deck of `test_dealer_turn_should_stay_by_points`. -/
def deckT1 : List Card :=
  [⟨"10", "hearts", 10, ""⟩, ⟨"ace", "hearts", 1, ""⟩, ⟨"9", "nine", 9, ""⟩,
   ⟨"queen", "hearts", 10, ""⟩, ⟨"10", "spades", 10, ""⟩, ⟨"king", "hearts", 10, ""⟩,
   ⟨"jack", "diamonds", 10, ""⟩, ⟨"9", "clubs", 9, ""⟩]

/-- Replays `test_dealer_turn_should_stay_by_points`: two turns, gamblers 1 and
3 stay, one more turn. -/
def runT1 : Dealer :=
  let d0 := { Dealer.init [Gambler.init "Gambler 1", Gambler.init "Gambler 2",
                Gambler.init "Gambler 3"] with deck := deckT1 }
  let r1 := Dealer.turn d0 (List.replicate 12 0)
  let r2 := Dealer.turn r1.2.1 r1.2.2
  let d2 := r2.2.1
  let d2' := { d2 with gamblers :=
    match d2.gamblers with
    | a :: b :: c :: rest => (Gambler.stay a).2 :: b :: (Gambler.stay c).2 :: rest
    | l => l }
  (Dealer.turn d2' r2.2.2).2.1

example : runT1.state = STAYED ∧ (runT1.gamblers.map fun g => g.credit) = [2, 3, 1] := by
  decide

/-- The scripted deck of `test_dealer_turn_should_stay_by_gamblers`. -/
def deckT2 : List Card :=
  [⟨"10", "diamonds", 10, ""⟩, ⟨"ace", "diamonds", 1, ""⟩, ⟨"jack", "diamonds", 10, ""⟩,
   ⟨"queen", "hearts", 10, ""⟩, ⟨"10", "hearts", 10, ""⟩, ⟨"king", "hearts", 10, ""⟩,
   ⟨"10", "clubs", 10, ""⟩, ⟨"6", "clubs", 6, ""⟩, ⟨"2", "clubs", 2, ""⟩,
   ⟨"2", "spades", 2, ""⟩]

/-- Replays `test_dealer_turn_should_stay_by_gamblers`: three turns. -/
def runT2 : Dealer :=
  let d0 := { Dealer.init [Gambler.init "Gambler 1", Gambler.init "Gambler 2",
                Gambler.init "Gambler 3"] with deck := deckT2 }
  let r1 := Dealer.turn d0 (List.replicate 12 0)
  let r2 := Dealer.turn r1.2.1 r1.2.2
  (Dealer.turn r2.2.1 r2.2.2).2.1

example : runT2.state = STAYED ∧ (runT2.gamblers.map fun g => g.credit) = [0, 3, 0] := by
  decide

/-- The scripted deck of `test_dealer_turn_should_bust`. -/
def deckT3 : List Card :=
  [⟨"10", "hearts", 10, ""⟩, ⟨"ace", "hearts", 1, ""⟩, ⟨"jack", "hearts", 10, ""⟩,
   ⟨"queen", "hearts", 10, ""⟩, ⟨"5", "hearts", 5, ""⟩, ⟨"king", "hearts", 10, ""⟩,
   ⟨"10", "diamonds", 10, ""⟩, ⟨"6", "diamonds", 6, ""⟩, ⟨"2", "diamonds", 2, ""⟩,
   ⟨"8", "diamonds", 8, ""⟩]

/-- Replays `test_dealer_turn_should_bust`: two turns, gambler 1 stays, two
more turns. -/
def runT3 : Dealer :=
  let d0 := { Dealer.init [Gambler.init "Gambler 1", Gambler.init "Gambler 2",
                Gambler.init "Gambler 3"] with deck := deckT3 }
  let r1 := Dealer.turn d0 (List.replicate 14 0)
  let r2 := Dealer.turn r1.2.1 r1.2.2
  let d2 := r2.2.1
  let d2' := { d2 with gamblers :=
    match d2.gamblers with
    | a :: rest => (Gambler.stay a).2 :: rest
    | l => l }
  let r3 := Dealer.turn d2' r2.2.2
  (Dealer.turn r3.2.1 r3.2.2).2.1

example : runT3.state = BUSTED ∧
    (runT3.gamblers.map fun g => g.state) = [STAYED, TWENTY_ONE, BUSTED] ∧
    (runT3.gamblers.map fun g => g.credit) = [2, 3, 0] := by
  decide

end TestReplays

/-! ## Spec-side definitions for the refinement comparisons -/

/-- The hand rule exactly as claim C1 states it: the total is the raw weight
sum, promoted to `11 + (sum - 1)` only when exactly one card of rank `"ace"`
is present and the raw sum is exactly 11; the empty hand scores 0. -/
def specHandExactlyOneAce (cards : Finset Card) : Int :=
  if cards = ∅ then 0
  else
    let s := cards.sum fun c => c.weight
    if (cards.filter fun c => c.rank = "ace").card = 1 ∧ s = 11 then 11 + (s - 1)
    else s

/-- The amended hand rule: promotion whenever at least one card of rank
`"ace"` is present and the raw sum is exactly 11. -/
def specHandSomeAce (cards : Finset Card) : Int :=
  if cards = ∅ then 0
  else
    let s := cards.sum fun c => c.weight
    if (∃ c ∈ cards, c.rank = "ace") ∧ s = 11 then 11 + (s - 1)
    else s

/-- The Gambler's four trigger names. -/
inductive GTrigger where
  | play : GTrigger
  | win : GTrigger
  | stay : GTrigger
  | bust : GTrigger
deriving DecidableEq

/-- The source state of each Gambler transition (its `add_transition` call). -/
def gSource : GTrigger → String
  | .play => READY_TO_GAME
  | .win => GAMING
  | .stay => GAMING
  | .bust => GAMING

/-- The guard of each Gambler transition (`stay` is unguarded). -/
def gGuard : GTrigger → PState → Bool
  | .play, g => Gambler.should_play g
  | .win, g => Gambler.should_win g
  | .stay, _ => true
  | .bust, g => should_bust g

/-- Invoke a Gambler trigger by name. -/
def Gambler.fire : GTrigger → PState → Option Err × PState
  | .play, g => Gambler.play g
  | .win, g => Gambler.win g
  | .stay, g => Gambler.stay g
  | .bust, g => Gambler.bust g

/-- The Dealer's five trigger names. -/
inductive DTrigger where
  | deal : DTrigger
  | hide : DTrigger
  | expose : DTrigger
  | bust : DTrigger
  | stay : DTrigger
deriving DecidableEq

/-- The source state of each Dealer transition. -/
def dSource : DTrigger → String
  | .deal => DEAL_PENDING
  | .hide => STARTED
  | .expose => HIDING
  | .bust => EXPOSED
  | .stay => EXPOSED

/-- The guard of each Dealer transition. -/
def dGuard : DTrigger → Dealer → Bool
  | .deal, d => Dealer.should_deal d
  | .hide, d => Dealer.should_hide d
  | .expose, d => Dealer.should_expose d
  | .bust, d => should_bust ⟨d.name, d.state, d.cards, d.credit⟩
  | .stay, d => Dealer.should_stay d

/-- Invoke a Dealer trigger by name. -/
def Dealer.fire : DTrigger → Dealer → Option Err × Dealer
  | .deal, d => Dealer.deal d
  | .hide, d => Dealer.hide d
  | .expose, d => Dealer.expose d
  | .bust, d => Dealer.bust d
  | .stay, d => Dealer.stay d

/-! ## Claim theorems -/

/-- C1, counterexample: the hand {ace of spades, ace of hearts, 9 of clubs}
has two aces and raw sum 11; the code promotes it to 21, while the claim's
"exactly one ace" rule yields 11.  So promotion is not restricted to hands
with exactly one ace. -/
theorem hand_exactly_one_ace_counterexample :
    (({aceSpades, aceHearts, nineClubs} : Finset Card).filter fun c => c.rank = "ace").card = 2 ∧
    (({aceSpades, aceHearts, nineClubs} : Finset Card).sum fun c => c.weight) = 11 ∧
    hand {aceSpades, aceHearts, nineClubs} = 21 ∧
    specHandExactlyOneAce {aceSpades, aceHearts, nineClubs} = 11 := by
  decide

/-- C1, amended: `hand` returns 0 on the empty hand and otherwise the raw
weight sum, promoted to `11 + (sum - 1) = 21` exactly when at least one card
of rank `"ace"` is present and the raw sum is exactly 11 (so a hand of two
aces alone scores 2), and it is a pure function of the hand contents. -/
theorem hand_eq_specHandSomeAce : ∀ cards : Finset Card, hand cards = specHandSomeAce cards := by
  intro cards
  by_cases hO : cards = ∅
  · simp [hand, specHandSomeAce, hO]
  · by_cases hE : ∃ c ∈ cards, c.rank = "ace" <;>
      by_cases hS : (cards.sum fun c => c.weight) = 11 <;>
        simp [hand, specHandSomeAce, ACE_RANK_POINTS, hO, hE, hS]

/-- C4, counterexample: a dealer in EXPOSED with hand 22 and an empty gambler
roster.  `should_stay` is false (22 ≥ 17, so only `hand ≤ 21` is consulted),
but the claim's "(hand ∈ [17,21]) OR (no gambler STAYED)" is true because the
roster has no STAYED gambler. -/
theorem should_stay_iff_counterexample :
    hand ({tenSpades, tenHearts, twoClubs} : Finset Card) = 22 ∧
    Dealer.should_stay ⟨"Dealer", EXPOSED, {tenSpades, tenHearts, twoClubs}, 1, [], []⟩ = false ∧
    ¬ (Dealer.should_stay ⟨"Dealer", EXPOSED, {tenSpades, tenHearts, twoClubs}, 1, [], []⟩ = true ↔
        ((DEALER_RANK_POINTS_LIMIT ≤ hand ({tenSpades, tenHearts, twoClubs} : Finset Card) ∧
            hand ({tenSpades, tenHearts, twoClubs} : Finset Card) ≤ TWENTY_ONE_RANK_POINTS) ∨
          ∀ g ∈ ([] : List PState), g.state ≠ STAYED)) := by
  decide

/-- C4, amended: `should_stay` holds iff the dealer's hand is in [17, 21], or
the hand is below 17 and no gambler in the roster is in state STAYED. -/
theorem should_stay_characterization (d : Dealer) :
    Dealer.should_stay d = true ↔
      ((DEALER_RANK_POINTS_LIMIT ≤ hand d.cards ∧ hand d.cards ≤ TWENTY_ONE_RANK_POINTS) ∨
        (hand d.cards < DEALER_RANK_POINTS_LIMIT ∧ ∀ g ∈ d.gamblers, g.state ≠ STAYED)) := by
  simp only [Dealer.should_stay, DEALER_RANK_POINTS_LIMIT, TWENTY_ONE_RANK_POINTS]
  split_ifs with h
  · simp only [decide_eq_true_eq]
    omega
  · simp only [List.all_eq_true, decide_eq_true_eq]
    constructor
    · intro hall
      right
      exact ⟨by omega, hall⟩
    · rintro (⟨h1, _⟩ | ⟨_, hall⟩)
      · omega
      · exact hall

/-- C5, counterexample: a dealer in HIDING holding the set {10♠, A♠} where the
ace was added first, but whose set-iteration order lists the 10 first:
`show()` returns the 10's record, not the first-added card's.  (A Python
`set` is unordered, so the iteration order is not the insertion order.) -/
theorem show_hiding_first_added_counterexample :
    List.Perm [tenSpades, aceSpades] [aceSpades, tenSpades] ∧
    Dealer.show HIDING [tenSpades, aceSpades] = .ok [Player.view tenSpades] ∧
    Player.view tenSpades ≠ Player.view aceSpades := by
  refine ⟨by decide, rfl, by decide⟩

/-- C5, amended: for a Dealer in HIDING holding at least one card, `show()`
returns a one-element list whose single record describes the first card of the
hand's iteration order — some held card, but not necessarily the first card
added, since the hand is an unordered set; in every other state `show()` lists
all held cards. -/
theorem show_hiding_head_of_iteration (state : String) (order : List Card) :
    (state = HIDING → order ≠ [] →
      ∃ c, c ∈ order ∧ Dealer.show state order = .ok [Player.view c]) ∧
    (state ≠ HIDING → Dealer.show state order = .ok (Player.show order)) := by
  constructor
  · intro hs hne
    match order with
    | [] => exact absurd rfl hne
    | c :: rest =>
      exact ⟨c, List.mem_cons_self c rest, by simp [Dealer.show, Player.show, hs]⟩
  · intro hs
    simp [Dealer.show, hs]

/-- C5 witness: instantiate the amended claim at a HIDING dealer holding one
card and at an EXPOSED dealer. -/
theorem show_hiding_head_of_iteration_witness :
    (∃ c, c ∈ [aceSpades] ∧ Dealer.show HIDING [aceSpades] = .ok [Player.view c]) ∧
    Dealer.show EXPOSED [aceSpades, tenSpades] =
      .ok (Player.show [aceSpades, tenSpades]) := by
  exact ⟨(show_hiding_head_of_iteration HIDING [aceSpades]).1 rfl (by decide),
    (show_hiding_head_of_iteration EXPOSED [aceSpades, tenSpades]).2 (by decide)⟩

/-- C2, counterexample: invoking `play` on a Gambler in GAMING — a state that
does not match the transition's source READY_TO_GAME — raises `MachineError`
(the `transitions` library's default for an invalid trigger) instead of being
a silent no-op. -/
theorem invalid_trigger_counterexample :
    (Gambler.fire .play ⟨"G", GAMING, {tenSpades}, 1⟩).1 = some Err.machineError := by
  decide

/-- C2, amended: invoking a trigger whose guard evaluates false while the
entity is in the transition's source state is a silent no-op (no error; state,
cards and credit unchanged); but invoking a trigger while the entity's state
does not match the transition's source state raises `MachineError`, leaving
the entity unchanged. -/
theorem trigger_guard_semantics (t : GTrigger) (u : DTrigger) (g : PState) (d : Dealer) :
    (g.state ≠ gSource t → Gambler.fire t g = (some .machineError, g)) ∧
    (g.state = gSource t → gGuard t g = false → Gambler.fire t g = (none, g)) ∧
    (d.state ≠ dSource u → Dealer.fire u d = (some .machineError, d)) ∧
    (d.state = dSource u → dGuard u d = false → Dealer.fire u d = (none, d)) := by
  refine ⟨fun h => ?_, fun h h2 => ?_, fun h => ?_, fun h h2 => ?_⟩
  · cases t <;>
      simp_all [Gambler.fire, gSource, Gambler.play, Gambler.win, Gambler.stay, Gambler.bust]
  · cases t <;>
      simp_all [Gambler.fire, gSource, gGuard, Gambler.play, Gambler.win, Gambler.stay,
        Gambler.bust]
  · cases u <;>
      simp_all [Dealer.fire, dSource, Dealer.deal, Dealer.hide, Dealer.expose, Dealer.bust,
        Dealer.stay]
  · cases u <;>
      simp_all [Dealer.fire, dSource, dGuard, Dealer.deal, Dealer.hide, Dealer.expose,
        Dealer.bust, Dealer.stay]

/-- C2 witness: the amended semantics at concrete inputs — a `win` on a
READY_TO_GAME gambler raises MachineError; a `play` on a cardless
READY_TO_GAME gambler is a no-op; a `deal` on an EXPOSED dealer raises
MachineError; a `stay` on an EXPOSED dealer with an empty hand (hand 0 < 17)
whose roster holds a STAYED gambler is a no-op. -/
theorem trigger_guard_semantics_witness :
    Gambler.fire .win ⟨"G", READY_TO_GAME, ∅, 1⟩ =
      (some .machineError, ⟨"G", READY_TO_GAME, ∅, 1⟩) ∧
    Gambler.fire .play ⟨"G", READY_TO_GAME, ∅, 1⟩ = (none, ⟨"G", READY_TO_GAME, ∅, 1⟩) ∧
    Dealer.fire .deal ⟨"D", EXPOSED, ∅, 1, [], []⟩ =
      (some .machineError, ⟨"D", EXPOSED, ∅, 1, [], []⟩) ∧
    Dealer.fire .stay ⟨"D", EXPOSED, ∅, 1, [⟨"G", STAYED, ∅, 1⟩], []⟩ =
      (none, ⟨"D", EXPOSED, ∅, 1, [⟨"G", STAYED, ∅, 1⟩], []⟩) := by
  refine ⟨(trigger_guard_semantics .win .deal ⟨"G", READY_TO_GAME, ∅, 1⟩
      ⟨"D", EXPOSED, ∅, 1, [], []⟩).1 (by decide),
    (trigger_guard_semantics .play .deal ⟨"G", READY_TO_GAME, ∅, 1⟩
      ⟨"D", EXPOSED, ∅, 1, [], []⟩).2.1 (by decide) (by decide),
    (trigger_guard_semantics .play .deal ⟨"G", READY_TO_GAME, ∅, 1⟩
      ⟨"D", EXPOSED, ∅, 1, [], []⟩).2.2.1 (by decide),
    (trigger_guard_semantics .play .stay ⟨"G", READY_TO_GAME, ∅, 1⟩
      ⟨"D", EXPOSED, ∅, 1, [⟨"G", STAYED, ∅, 1⟩], []⟩).2.2.2 (by decide) (by decide)⟩

/-- C7: a Gambler in GAMING moves to BUSTED with credit exactly 0 on `bust`
when its hand exceeds 21, moves to TWENTY_ONE with credit doubled on `win`
when its hand is exactly 21, and neither trigger changes anything when its
guard fails. -/
theorem gambler_bust_win_effects (g : PState) (hg : g.state = GAMING) :
    (hand g.cards > TWENTY_ONE_RANK_POINTS →
      Gambler.bust g = (none, ⟨g.name, BUSTED, g.cards, 0⟩)) ∧
    (hand g.cards = TWENTY_ONE_RANK_POINTS →
      Gambler.win g = (none, ⟨g.name, TWENTY_ONE, g.cards, 2 * g.credit⟩)) ∧
    (¬ hand g.cards > TWENTY_ONE_RANK_POINTS → Gambler.bust g = (none, g)) ∧
    (hand g.cards ≠ TWENTY_ONE_RANK_POINTS → Gambler.win g = (none, g)) := by
  refine ⟨fun h => ?_, fun h => ?_, fun h => ?_, fun h => ?_⟩
  · simp [Gambler.bust, hg, should_bust, h, sub_self]
  · simp [Gambler.win, hg, Gambler.should_win, h, two_mul]
  · simp [Gambler.bust, hg, should_bust, h]
  · simp [Gambler.win, hg, Gambler.should_win, h]

/-- C7 witness: a GAMING gambler with hand 22 busts to credit 0; a GAMING
gambler with hand 21 (ace + 10) wins to credit 2. -/
theorem gambler_bust_win_effects_witness :
    Gambler.bust ⟨"G", GAMING, {tenSpades, tenHearts, twoClubs}, 5⟩ =
      (none, ⟨"G", BUSTED, {tenSpades, tenHearts, twoClubs}, 0⟩) ∧
    Gambler.win ⟨"H", GAMING, {aceSpades, tenSpades}, 5⟩ =
      (none, ⟨"H", TWENTY_ONE, {aceSpades, tenSpades}, 10⟩) := by
  exact ⟨(gambler_bust_win_effects ⟨"G", GAMING, {tenSpades, tenHearts, twoClubs}, 5⟩
      rfl).1 (by decide),
    (gambler_bust_win_effects ⟨"H", GAMING, {aceSpades, tenSpades}, 5⟩ rfl).2.1 (by decide)⟩

/-- C9: `hit` in a state outside {DEAL_PENDING, READY_TO_GAME, GAMING,
STARTED, EXPOSED} leaves the player, the deck and the random stream untouched
and raises no error even on an empty deck; in a state inside that set it draws
exactly one card from the deck (which shrinks by one) and adds it to the
player's hand. -/
theorem hit_gating (p : PState) (deck : List Card) (rand : List Nat) :
    (p.state ∉ HIT_STATES → Player.hit p deck rand = (none, p, deck, rand)) ∧
    (p.state ∈ HIT_STATES → deck ≠ [] →
      ∃ c, c ∈ deck ∧
        Player.hit p deck rand =
          (none, { p with cards := insert c p.cards }, deck.erase c, rand.tail) ∧
        (deck.erase c).length + 1 = deck.length) := by
  constructor
  · intro h
    simp [Player.hit, h]
  · intro h hne
    have hlen : ¬ deck.length < 1 := by
      cases deck with
      | nil => exact absurd rfl hne
      | cons a l => simp
    refine ⟨deck.get ⟨(rand.headD 0) % deck.length, Nat.mod_lt _ (by omega)⟩, ?_, ?_, ?_⟩
    · exact List.get_mem deck _ _
    · simp [Player.hit, h, Deck.pick, hlen]
    · exact List.length_erase_add_one (List.get_mem deck _ _)

/-- C9 witness: a STAYED gambler hitting on an empty deck is an error-free
no-op; a GAMING gambler hitting on a one-card deck draws that card. -/
theorem hit_gating_witness :
    Player.hit ⟨"G", STAYED, ∅, 1⟩ [] [] = (none, ⟨"G", STAYED, ∅, 1⟩, [], []) ∧
    ∃ c, c ∈ [tenSpades] ∧
      Player.hit ⟨"H", GAMING, ∅, 1⟩ [tenSpades] [0] =
        (none, ⟨"H", GAMING, insert c ∅, 1⟩, [tenSpades].erase c, [].tail) ∧
      ([tenSpades].erase c).length + 1 = [tenSpades].length := by
  exact ⟨(hit_gating ⟨"G", STAYED, ∅, 1⟩ [] []).1 (by decide),
    (hit_gating ⟨"H", GAMING, ∅, 1⟩ [tenSpades] [0]).2 (by decide) (by decide)⟩

/-- `_hit` never changes the dealer's machine state. -/
theorem hit_underscore_state (d : Dealer) (rand : List Nat) :
    (Dealer.hit_ d rand).2.1.state = d.state := by
  unfold Dealer.hit_
  dsimp only
  split <;> simp [Player.hit]

/-- `_hit` leaves the dealer's own hand alone when the dealer's state is not
open for dealing. -/
theorem hit_underscore_cards (d : Dealer) (rand : List Nat) (h : d.state ∉ HIT_STATES) :
    (Dealer.hit_ d rand).2.1.cards = d.cards := by
  unfold Dealer.hit_
  dsimp only
  split
  · simp
  · simp [Player.hit, h]

/-- C3, counterexample: calling `turn()` on a Dealer in the terminal state
BUSTED raises a `TypeError` (`states.get(self.state)` yields `None`, which is
then called), rather than being error-free. -/
theorem turn_terminal_counterexample :
    (Dealer.turn ⟨"Dealer", BUSTED, ∅, 1, [], []⟩ []).1 = some Err.typeError ∧
    (Dealer.turn ⟨"Dealer", BUSTED, ∅, 1, [], []⟩ []).2.1 = ⟨"Dealer", BUSTED, ∅, 1, [], []⟩ := by
  decide

/-- C3, amended: once the Dealer is in a terminal state (BUSTED or STAYED),
every further `turn()` call raises an error — normally the `TypeError` from
dispatching on a state absent from the dispatch dict — after the hit phase has
run; the dealer's own state and hand (cards) are unchanged, so the round fails
to progress. -/
theorem turn_terminal (d : Dealer) (rand : List Nat)
    (h : d.state = BUSTED ∨ d.state = STAYED) :
    (∃ e, (Dealer.turn d rand).1 = some e) ∧
    (Dealer.turn d rand).2.1.state = d.state ∧
    (Dealer.turn d rand).2.1.cards = d.cards := by
  have hnot : d.state ∉ HIT_STATES := by
    rcases h with h | h <;> rw [h] <;> decide
  have hst := hit_underscore_state d rand
  have hcd := hit_underscore_cards d rand hnot
  unfold Dealer.turn
  rcases hre : Dealer.hit_ d rand with ⟨e, d1, rand1⟩
  rw [hre] at hst hcd
  dsimp only at hst hcd
  cases e with
  | some e => exact ⟨⟨e, rfl⟩, hst, hcd⟩
  | none =>
    have hd1 : d1.state = d.state := hst
    rcases h with h | h <;>
      simp [hd1, h, BUSTED, STAYED, DEAL_PENDING, STARTED, HIDING, EXPOSED, hst, hcd]

/-- C3 witness: a STAYED dealer's `turn()` errors and leaves its state and
hand unchanged. -/
theorem turn_terminal_witness :
    (∃ e, (Dealer.turn ⟨"D", STAYED, ∅, 1, [], []⟩ []).1 = some e) ∧
    (Dealer.turn ⟨"D", STAYED, ∅, 1, [], []⟩ []).2.1.state = STAYED ∧
    (Dealer.turn ⟨"D", STAYED, ∅, 1, [], []⟩ []).2.1.cards = ∅ := by
  exact turn_terminal ⟨"D", STAYED, ∅, 1, [], []⟩ [] (Or.inr rfl)

/-- A successful `pick` returns a member of the deck and the deck with (one
occurrence of) that card removed. -/
theorem pick_ok (i : Nat) (deck : List Card) (h : deck ≠ []) :
    ∃ c, c ∈ deck ∧ Deck.pick i deck = .ok (c, deck.erase c) := by
  have hlen : ¬ deck.length < 1 := by
    cases deck with
    | nil => exact absurd rfl h
    | cons a l => simp
  refine ⟨deck.get ⟨i % deck.length, Nat.mod_lt _ (by omega)⟩, List.get_mem deck _ _, ?_⟩
  simp [Deck.pick, hlen]

/-- The picked cards plus the remaining deck are a permutation of the original
deck, and the number of picked cards is the number of requested draws capped
at the deck size. -/
theorem pickSeq_spec (idxs : List Nat) (deck : List Card) :
    ((Deck.pickSeq idxs deck).1 ++ (Deck.pickSeq idxs deck).2).Perm deck ∧
    (Deck.pickSeq idxs deck).1.length = min idxs.length deck.length := by
  induction idxs generalizing deck with
  | nil => simp [Deck.pickSeq]
  | cons i is ih =>
    by_cases h : deck = []
    · subst h
      simp [Deck.pickSeq, Deck.pick]
    · obtain ⟨c, hc, hpick⟩ := pick_ok i deck h
      obtain ⟨hperm, hlen⟩ := ih (deck.erase c)
      have herase : (deck.erase c).length + 1 = deck.length := List.length_erase_add_one hc
      simp only [Deck.pickSeq, hpick]
      constructor
      · exact (hperm.cons c).trans (List.perm_cons_erase hc).symm
      · simp only [List.length_cons, hlen]
        have : 1 ≤ deck.length := by omega
        omega

/-- C8: `pick` fails (with the `ValueError`) exactly on the empty deck, and
otherwise removes and returns one of the remaining cards, shrinking the deck
by one and preserving freedom from duplicates; the fresh deck has exactly 52
cards, pairwise distinct by (rank, suit); any 52 successive picks from a fresh
deck succeed with 52 pairwise-distinct cards, and a 53rd pick fails. -/
theorem deck_integrity :
    Deck.new.length = 52 ∧
    Deck.new.Pairwise (fun a b => ¬(a.rank = b.rank ∧ a.suit = b.suit)) ∧
    (∀ i deck, Deck.pick i deck = .error .valueError ↔ deck = []) ∧
    (∀ i deck, deck ≠ [] →
      ∃ c, c ∈ deck ∧ Deck.pick i deck = .ok (c, deck.erase c) ∧
        (deck.erase c).length + 1 = deck.length ∧
        (deck.Nodup → (deck.erase c).Nodup)) ∧
    (∀ idxs : List Nat, idxs.length = 52 →
      (Deck.pickSeq idxs Deck.new).1.length = 52 ∧
      (Deck.pickSeq idxs Deck.new).1.Nodup ∧
      (Deck.pickSeq idxs Deck.new).2 = [] ∧
      ∀ i, Deck.pick i (Deck.pickSeq idxs Deck.new).2 = .error .valueError) := by
  have hpair : Deck.new.Pairwise (fun a b => ¬(a.rank = b.rank ∧ a.suit = b.suit)) := by
    decide
  have hnodup : Deck.new.Nodup :=
    hpair.imp fun h heq => h (by rw [heq]; exact ⟨rfl, rfl⟩)
  have hempty : ∀ i deck, Deck.pick i deck = .error .valueError ↔ deck = [] := by
    intro i deck
    constructor
    · intro he
      by_contra hne
      obtain ⟨c, _, hpick⟩ := pick_ok i deck hne
      rw [hpick] at he
      exact Except.noConfusion he
    · intro he
      subst he
      simp [Deck.pick]
  refine ⟨by decide, hpair, hempty, ?_, ?_⟩
  · intro i deck hne
    obtain ⟨c, hc, hpick⟩ := pick_ok i deck hne
    exact ⟨c, hc, hpick, List.length_erase_add_one hc, fun hn => hn.erase c⟩
  · intro idxs hlen52
    obtain ⟨hperm, hplen⟩ := pickSeq_spec idxs Deck.new
    have hnew : Deck.new.length = 52 := by decide
    have hp52 : (Deck.pickSeq idxs Deck.new).1.length = 52 := by
      simp [hplen, hlen52, hnew]
    have htot : ((Deck.pickSeq idxs Deck.new).1 ++ (Deck.pickSeq idxs Deck.new).2).length = 52 := by
      rw [hperm.length_eq, hnew]
    have hrest : (Deck.pickSeq idxs Deck.new).2 = [] := by
      have : (Deck.pickSeq idxs Deck.new).2.length = 0 := by
        rw [List.length_append] at htot
        omega
      exact List.eq_nil_of_length_eq_zero this
    have happnd : ((Deck.pickSeq idxs Deck.new).1 ++ (Deck.pickSeq idxs Deck.new).2).Nodup :=
      hperm.symm.nodup hnodup
    refine ⟨hp52, (List.nodup_append.mp happnd).1, hrest, fun i => ?_⟩
    rw [hrest]
    simp [Deck.pick]

/-- C8 witness: drawing with index stream all-zero: 52 picks from the fresh
deck yield 52 distinct cards, empty the deck, and the 53rd pick fails. -/
theorem deck_integrity_witness :
    (Deck.pickSeq (List.replicate 52 0) Deck.new).1.length = 52 ∧
    (Deck.pickSeq (List.replicate 52 0) Deck.new).1.Nodup ∧
    (Deck.pickSeq (List.replicate 52 0) Deck.new).2 = [] ∧
    Deck.pick 0 (Deck.pickSeq (List.replicate 52 0) Deck.new).2 = .error .valueError ∧
    (Deck.pick 0 [] = .error .valueError ↔ ([] : List Card) = []) ∧
    ∃ c, c ∈ [tenSpades] ∧ Deck.pick 7 [tenSpades] = .ok (c, [tenSpades].erase c) ∧
      ([tenSpades].erase c).length + 1 = [tenSpades].length ∧
      ([tenSpades].Nodup → ([tenSpades].erase c).Nodup) := by
  obtain ⟨h1, h2, h3, h4⟩ := deck_integrity.2.2.2.2 (List.replicate 52 0) (by decide)
  exact ⟨h1, h2, h3, h4 0, deck_integrity.2.2.1 0 [],
    deck_integrity.2.2.2.1 7 [tenSpades] (by decide)⟩

/-- `insertByName` only repositions the inserted element. -/
theorem insertByName_perm (g : PState) (l : List PState) :
    (Dealer.insertByName g l).Perm (g :: l) := by
  induction l with
  | nil => exact List.Perm.refl _
  | cons x xs ih =>
    simp only [Dealer.insertByName]
    split
    · exact List.Perm.refl _
    · exact (ih.cons x).trans (List.Perm.swap g x xs)

/-- Sorting the roster by name is a permutation. -/
theorem sortByName_perm (l : List PState) : (Dealer.sortByName l).Perm l := by
  induction l with
  | nil => exact List.Perm.refl _
  | cons x xs ih =>
    exact (insertByName_perm x (Dealer.sortByName xs)).trans (ih.cons x)

/-- The settlement that claim C6 describes for a single gambler: a STAYED
gambler whose hand equals the maximum `M` when `M` exceeds the dealer's hand
has its credit doubled; every other gambler is untouched. -/
def settleStayed (M dh : Int) (g : PState) : PState :=
  if g.state = STAYED ∧ hand g.cards = M ∧ M > dh then
    { g with credit := g.credit + g.credit }
  else g

/-- The maximum hand value among the STAYED gamblers of the dealer's roster
(0 when none are STAYED; irrelevant in that case). -/
def maxStayedHand (d : Dealer) : Int :=
  match d.gamblers.filter fun g => g.state = STAYED with
  | [] => 0
  | g0 :: rest => (rest.map fun g => hand g.cards).foldl max (hand g0.cards)

/-- C6: when the EXPOSED → STAYED transition fires (source state matches and
the guard holds), the resulting roster is, up to the final reordering, the old
roster with every STAYED gambler whose hand equals the STAYED maximum `M`
with `M` above the dealer's hand paid double, and everyone else's credit
unchanged; in particular with no STAYED gambler no credit changes. -/
theorem after_stay_settlement (d : Dealer) (hs : d.state = EXPOSED)
    (hg : Dealer.should_stay d = true) :
    (Dealer.stay d).1 = none ∧
    (Dealer.stay d).2.state = STAYED ∧
    (Dealer.stay d).2.gamblers.Perm
      (d.gamblers.map (settleStayed (maxStayedHand d) (hand d.cards))) := by
  have hne : ¬ d.state ≠ EXPOSED := by simp [hs]
  have hstay1 : Dealer.stay d = (none, Dealer.after_stay { d with state := STAYED }) := by
    simp [Dealer.stay, hne, hg]
  have hstate : ∀ dd : Dealer, (Dealer.after_stay dd).state = dd.state := by
    intro dd
    unfold Dealer.after_stay
    dsimp only
    split <;> rfl
  refine ⟨by rw [hstay1], by rw [hstay1]; exact hstate _, ?_⟩
  rw [hstay1]
  dsimp only
  unfold Dealer.after_stay
  dsimp only
  cases hfil : d.gamblers.filter (fun g => decide (g.state = STAYED)) with
  | nil =>
    simp only [hfil]
    have hmap : d.gamblers.map (settleStayed (maxStayedHand d) (hand d.cards)) =
        d.gamblers := by
      have hall := List.filter_eq_nil_iff.mp hfil
      refine (List.map_congr_left fun g hgm => ?_).trans (List.map_id d.gamblers)
      have hns : ¬ g.state = STAYED := by simpa using hall g hgm
      simp [settleStayed, hns]
    rw [hmap]
  | cons g0 rest =>
    simp only [hfil]
    have hmax : maxStayedHand d =
        (rest.map fun g => hand g.cards).foldl max (hand g0.cards) := by
      unfold maxStayedHand
      rw [hfil]
    have hpaid : ((g0 :: rest).map fun g =>
        if hand g.cards = (rest.map fun g => hand g.cards).foldl max (hand g0.cards) ∧
            (rest.map fun g => hand g.cards).foldl max (hand g0.cards) > hand d.cards then
          { g with credit := g.credit + g.credit }
        else g) =
        (g0 :: rest).map (settleStayed (maxStayedHand d) (hand d.cards)) := by
      refine List.map_congr_left fun g hgm => ?_
      have hstayg : g.state = STAYED := by
        have hmem : g ∈ d.gamblers.filter (fun g => decide (g.state = STAYED)) := by
          rw [hfil]
          exact hgm
        simpa using List.of_mem_filter hmem
      rw [← hmax]
      simp [settleStayed, hstayg]
    have hothers : (d.gamblers.filter fun g => ¬(g.state = STAYED)).map
        (settleStayed (maxStayedHand d) (hand d.cards)) =
        d.gamblers.filter fun g => ¬(g.state = STAYED) := by
      refine (List.map_congr_left fun g hgm => ?_).trans (List.map_id _)
      have hns : ¬ g.state = STAYED := by simpa using List.of_mem_filter hgm
      simp [settleStayed, hns]
    have hsplit : ((d.gamblers.filter fun g => ¬(g.state = STAYED)) ++ g0 :: rest).Perm
        d.gamblers := by
      rw [← hfil]
      have hnotform : (d.gamblers.filter fun g => ¬(g.state = STAYED)) =
          d.gamblers.filter fun g => !(decide (g.state = STAYED)) := by
        simp only [decide_not]
      rw [hnotform]
      exact List.perm_append_comm.trans
        (List.filter_append_perm (fun g => decide (g.state = STAYED)) d.gamblers)
    refine (sortByName_perm _).trans ?_
    rw [hpaid, ← hothers, ← List.map_append]
    exact hsplit.map _

/-- C6 witness: an EXPOSED dealer with hand 19, one STAYED gambler at 20, one
STAYED gambler at 19 and one BUSTED gambler: the stay fires and only the
20-hand STAYED gambler is paid double. -/
theorem after_stay_settlement_witness :
    (Dealer.stay ⟨"D", EXPOSED, {tenSpades, nineClubs}, 1,
        [⟨"A", STAYED, {tenSpades, tenHearts}, 1⟩, ⟨"B", STAYED, {tenHearts, nineClubs}, 1⟩,
          ⟨"C", BUSTED, ∅, 7⟩], []⟩).1 = none ∧
    (Dealer.stay ⟨"D", EXPOSED, {tenSpades, nineClubs}, 1,
        [⟨"A", STAYED, {tenSpades, tenHearts}, 1⟩, ⟨"B", STAYED, {tenHearts, nineClubs}, 1⟩,
          ⟨"C", BUSTED, ∅, 7⟩], []⟩).2.state = STAYED ∧
    (Dealer.stay ⟨"D", EXPOSED, {tenSpades, nineClubs}, 1,
        [⟨"A", STAYED, {tenSpades, tenHearts}, 1⟩, ⟨"B", STAYED, {tenHearts, nineClubs}, 1⟩,
          ⟨"C", BUSTED, ∅, 7⟩], []⟩).2.gamblers.Perm
      ([⟨"A", STAYED, {tenSpades, tenHearts}, 1⟩, ⟨"B", STAYED, {tenHearts, nineClubs}, 1⟩,
          ⟨"C", BUSTED, ∅, 7⟩].map
        (settleStayed
          (maxStayedHand ⟨"D", EXPOSED, {tenSpades, nineClubs}, 1,
            [⟨"A", STAYED, {tenSpades, tenHearts}, 1⟩,
              ⟨"B", STAYED, {tenHearts, nineClubs}, 1⟩, ⟨"C", BUSTED, ∅, 7⟩], []⟩)
          (hand ({tenSpades, nineClubs} : Finset Card)))) := by
  exact after_stay_settlement ⟨"D", EXPOSED, {tenSpades, nineClubs}, 1,
    [⟨"A", STAYED, {tenSpades, tenHearts}, 1⟩, ⟨"B", STAYED, {tenHearts, nineClubs}, 1⟩,
      ⟨"C", BUSTED, ∅, 7⟩], []⟩ rfl (by decide)


/-! ## Credit non-negativity (C10) -/

/-- Every player credit in the round (the dealer's and every gambler's) is
non-negative. -/
def creditsOk (d : Dealer) : Prop :=
  0 ≤ d.credit ∧ ∀ g ∈ d.gamblers, 0 ≤ g.credit

/-- `hit` never touches credit or state. -/
theorem hit_credit_state (p : PState) (deck : List Card) (rand : List Nat) :
    (Player.hit p deck rand).2.1.credit = p.credit ∧
    (Player.hit p deck rand).2.1.state = p.state := by
  unfold Player.hit
  split
  · split <;> exact ⟨rfl, rfl⟩
  · exact ⟨rfl, rfl⟩

/-- `play` and `stay` never change credit. -/
theorem play_stay_credit (g : PState) :
    (Gambler.play g).2.credit = g.credit ∧ (Gambler.stay g).2.credit = g.credit := by
  unfold Gambler.play Gambler.stay
  split_ifs <;> exact ⟨rfl, rfl⟩

/-- `win` and `bust` keep a non-negative credit non-negative. -/
theorem win_bust_credit (g : PState) (h : 0 ≤ g.credit) :
    0 ≤ (Gambler.win g).2.credit ∧ 0 ≤ (Gambler.bust g).2.credit := by
  unfold Gambler.win Gambler.bust
  split_ifs <;> simp <;> omega

/-- `after_deal`'s play loop keeps all gambler credits non-negative. -/
theorem playAll_credit (gs : List PState) (h : ∀ g ∈ gs, 0 ≤ g.credit) :
    ∀ g' ∈ (Dealer.playAll gs).2, 0 ≤ g'.credit := by
  induction gs with
  | nil =>
    intro g' hg'
    simp [Dealer.playAll] at hg'
  | cons g gs ih =>
    intro g' hg'
    have hg0 : 0 ≤ g.credit := h g (List.mem_cons_self g gs)
    have htail : ∀ x ∈ gs, 0 ≤ x.credit := fun x hx => h x (List.mem_cons_of_mem g hx)
    have hplay : 0 ≤ (Gambler.play g).2.credit := by
      rw [(play_stay_credit g).1]
      exact hg0
    simp only [Dealer.playAll] at hg'
    rcases hp : Gambler.play g with ⟨e, g1⟩
    rw [hp] at hg'
    rw [hp] at hplay
    cases e with
    | some e =>
      simp at hg'
      rcases hg' with rfl | hg'
      · exact hplay
      · exact htail g' hg'
    | none =>
      simp at hg'
      rcases hg' with rfl | hg'
      · exact hplay
      · exact ih htail g' hg'

/-- The gambler loop of `_hit` keeps the dealer's credit and every gambler
credit non-negative. -/
theorem hitLoop_credit (gs : List PState) :
    ∀ dcredit deck rand, 0 ≤ dcredit → (∀ g ∈ gs, 0 ≤ g.credit) →
      0 ≤ (Dealer.hitLoop dcredit deck rand gs).2.2.1 ∧
      ∀ g' ∈ (Dealer.hitLoop dcredit deck rand gs).2.1, 0 ≤ g'.credit := by
  induction gs with
  | nil =>
    intro dcredit deck rand hd hg
    refine ⟨hd, ?_⟩
    intro g' hg'
    simp [Dealer.hitLoop] at hg'
  | cons g gs ih =>
    intro dcredit deck rand hd hg
    have hg0 : 0 ≤ g.credit := hg g (List.mem_cons_self g gs)
    have htail : ∀ x ∈ gs, 0 ≤ x.credit := fun x hx => hg x (List.mem_cons_of_mem g hx)
    simp only [Dealer.hitLoop]
    rcases hhit : Player.hit g deck rand with ⟨e, g1, deck1, rand1⟩
    have hg1 : 0 ≤ g1.credit := by
      have := (hit_credit_state g deck rand).1
      rw [hhit] at this
      rw [show ((e, g1, deck1, rand1).2.1 : PState) = g1 from rfl] at this
      rw [this]
      exact hg0
    cases e with
    | some e =>
      refine ⟨hd, ?_⟩
      intro g' hg'
      rcases List.mem_cons.mp hg' with rfl | hg'
      · exact hg1
      · exact htail g' hg'
    | none =>
      by_cases hgam : g1.state ≠ GAMING
      · simp only [if_pos hgam]
        obtain ⟨hcd, hgs⟩ := ih dcredit deck1 rand1 hd htail
        refine ⟨hcd, ?_⟩
        intro g' hg'
        rcases List.mem_cons.mp hg' with rfl | hg'
        · exact hg1
        · exact hgs g' hg'
      · simp only [if_neg hgam]
        rcases hbust : (if hand g1.cards > TWENTY_ONE_RANK_POINTS then Gambler.bust g1
            else (none, g1)) with ⟨e2, g2⟩
        have hg2 : 0 ≤ g2.credit := by
          by_cases hb : hand g1.cards > TWENTY_ONE_RANK_POINTS
          · rw [if_pos hb] at hbust
            have := (win_bust_credit g1 hg1).2
            rw [hbust] at this
            exact this
          · rw [if_neg hb] at hbust
            cases hbust
            exact hg1
        cases e2 with
        | some e2 =>
          refine ⟨hd, ?_⟩
          intro g' hg'
          rcases List.mem_cons.mp hg' with rfl | hg'
          · exact hg2
          · exact htail g' hg'
        | none =>
          by_cases hw : hand g2.cards = TWENTY_ONE_RANK_POINTS
          · simp only [if_pos hw]
            rcases hwin : Gambler.win g2 with ⟨e3, g3⟩
            have hg3 : 0 ≤ g3.credit := by
              have := (win_bust_credit g2 hg2).1
              rw [hwin] at this
              exact this
            cases e3 with
            | some e3 =>
              refine ⟨hd, ?_⟩
              intro g' hg'
              rcases List.mem_cons.mp hg' with rfl | hg'
              · exact hg3
              · exact htail g' hg'
            | none =>
              obtain ⟨hcd, hgs⟩ := ih (dcredit - dcredit) deck1 rand1 (by omega) htail
              refine ⟨hcd, ?_⟩
              intro g' hg'
              rcases List.mem_cons.mp hg' with rfl | hg'
              · simp only []
                omega
              · exact hgs g' hg'
          · simp only [if_neg hw]
            obtain ⟨hcd, hgs⟩ := ih dcredit deck1 rand1 hd htail
            refine ⟨hcd, ?_⟩
            intro g' hg'
            rcases List.mem_cons.mp hg' with rfl | hg'
            · exact hg2
            · exact hgs g' hg'

/-- `after_bust` keeps gambler credits non-negative and leaves the dealer's
credit alone. -/
theorem after_bust_credit (d : Dealer) (h : ∀ g ∈ d.gamblers, 0 ≤ g.credit) :
    (Dealer.after_bust d).credit = d.credit ∧
    ∀ g' ∈ (Dealer.after_bust d).gamblers, 0 ≤ g'.credit := by
  refine ⟨rfl, ?_⟩
  intro g' hg'
  simp only [Dealer.after_bust] at hg'
  obtain ⟨g, hgm, rfl⟩ := List.mem_map.mp hg'
  have := h g hgm
  split_ifs <;> simp <;> omega

/-- `after_stay` keeps gambler credits non-negative and leaves the dealer's
credit alone. -/
theorem after_stay_credit (d : Dealer) (h : ∀ g ∈ d.gamblers, 0 ≤ g.credit) :
    (Dealer.after_stay d).credit = d.credit ∧
    ∀ g' ∈ (Dealer.after_stay d).gamblers, 0 ≤ g'.credit := by
  unfold Dealer.after_stay
  dsimp only
  cases hfil : d.gamblers.filter (fun g => decide (g.state = STAYED)) with
  | nil =>
    simp only [hfil]
    exact ⟨trivial, h⟩
  | cons g0 rest =>
    simp only [hfil]
    refine ⟨trivial, ?_⟩
    intro g' hg'
    have hg'' := (sortByName_perm _).mem_iff.mp hg'
    rcases List.mem_append.mp hg'' with hmem | hmem
    · exact h g' (List.mem_of_mem_filter hmem)
    · obtain ⟨g, hgm, rfl⟩ := List.mem_map.mp hmem
      have hgd : g ∈ d.gamblers := by
        have : g ∈ d.gamblers.filter (fun g => decide (g.state = STAYED)) := by
          rw [hfil]
          exact hgm
        exact List.mem_of_mem_filter this
      have := h g hgd
      split_ifs <;> simp <;> omega

/-- Every Dealer trigger preserves `creditsOk`. -/
theorem fire_creditsOk (u : DTrigger) (d : Dealer) (h : creditsOk d) :
    creditsOk (Dealer.fire u d).2 := by
  obtain ⟨hd, hg⟩ := h
  have hstay : creditsOk (Dealer.stay d).2 := by
    unfold Dealer.stay
    split_ifs
    · exact ⟨hd, hg⟩
    · obtain ⟨hc, hgs⟩ := after_stay_credit { d with state := STAYED } hg
      exact ⟨by rw [hc]; exact hd, hgs⟩
    · exact ⟨hd, hg⟩
  cases u with
  | deal =>
    simp only [Dealer.fire, Dealer.deal]
    split_ifs
    · exact ⟨hd, hg⟩
    · exact ⟨hd, playAll_credit d.gamblers hg⟩
    · exact ⟨hd, hg⟩
  | hide =>
    simp only [Dealer.fire, Dealer.hide]
    split_ifs <;> exact ⟨hd, hg⟩
  | expose =>
    simp only [Dealer.fire, Dealer.expose]
    split_ifs
    · exact ⟨hd, hg⟩
    · unfold Dealer.stay
      split_ifs
      · exact ⟨hd, hg⟩
      · obtain ⟨hc, hgs⟩ := after_stay_credit
          { ({ d with state := EXPOSED } : Dealer) with state := STAYED } hg
        exact ⟨by rw [hc]; exact hd, hgs⟩
      · exact ⟨hd, hg⟩
    · exact ⟨hd, hg⟩
  | bust =>
    simp only [Dealer.fire, Dealer.bust]
    split_ifs
    · exact ⟨hd, hg⟩
    · obtain ⟨hc, hgs⟩ := after_bust_credit { d with state := BUSTED } hg
      exact ⟨by rw [hc]; exact hd, hgs⟩
    · exact ⟨hd, hg⟩
  | stay => exact hstay

/-- `_hit` preserves `creditsOk`. -/
theorem hit_underscore_creditsOk (d : Dealer) (rand : List Nat) (h : creditsOk d) :
    creditsOk (Dealer.hit_ d rand).2.1 := by
  obtain ⟨hd, hg⟩ := h
  obtain ⟨hcd, hgs⟩ := hitLoop_credit d.gamblers d.credit d.deck rand hd hg
  unfold Dealer.hit_
  dsimp only
  split
  · exact ⟨hcd, hgs⟩
  · exact ⟨hcd, hgs⟩

/-- `turn` preserves `creditsOk`. -/
theorem turn_creditsOk (d : Dealer) (rand : List Nat) (h : creditsOk d) :
    creditsOk (Dealer.turn d rand).2.1 := by
  have h1 := hit_underscore_creditsOk d rand h
  unfold Dealer.turn
  rcases hre : Dealer.hit_ d rand with ⟨e, d1, rand1⟩
  rw [hre] at h1
  cases e with
  | some e => exact h1
  | none =>
    dsimp only
    split_ifs
    · exact fire_creditsOk .deal d1 h1
    · exact fire_creditsOk .hide d1 h1
    · exact fire_creditsOk .expose d1 h1
    · exact fire_creditsOk .bust d1 h1
    · exact fire_creditsOk .stay d1 h1
    · exact h1

/-- C10: starting from non-negative credits, a `turn`, any Gambler trigger,
any Dealer trigger, and `hit` all keep every credit a non-negative integer; a
GAMING gambler's `bust` with hand over 21 sets its credit to exactly 0. -/
theorem credit_nonneg_invariant (d : Dealer) (rand : List Nat) (g : PState) (t : GTrigger)
    (u : DTrigger) (deck : List Card) (hd : creditsOk d) (hg : 0 ≤ g.credit) :
    creditsOk (Dealer.turn d rand).2.1 ∧
    0 ≤ (Gambler.fire t g).2.credit ∧
    creditsOk (Dealer.fire u d).2 ∧
    0 ≤ (Player.hit g deck rand).2.1.credit ∧
    (g.state = GAMING → hand g.cards > TWENTY_ONE_RANK_POINTS →
      (Gambler.bust g).2.credit = 0) := by
  refine ⟨turn_creditsOk d rand hd, ?_, fire_creditsOk u d hd, ?_, ?_⟩
  · cases t with
    | play =>
      rw [show (Gambler.fire .play g) = Gambler.play g from rfl, (play_stay_credit g).1]
      exact hg
    | win => exact (win_bust_credit g hg).1
    | stay =>
      rw [show (Gambler.fire .stay g) = Gambler.stay g from rfl, (play_stay_credit g).2]
      exact hg
    | bust => exact (win_bust_credit g hg).2
  · rw [(hit_credit_state g deck rand).1]
    exact hg
  · intro hgam hhand
    have hsrc : ¬ g.state ≠ GAMING := by simp [hgam]
    have hhand21 : (21 : Int) < hand g.cards := by
      have := hhand
      simp only [TWENTY_ONE_RANK_POINTS] at this
      omega
    have hb : should_bust g = true := by
      simp only [should_bust, TWENTY_ONE_RANK_POINTS, gt_iff_lt, decide_eq_true_eq]
      omega
    simp [Gambler.bust, hsrc, hb]

/-- C10 witness: one turn of a fresh round with three unit-stake gamblers
keeps all credits non-negative; a GAMING gambler with hand 22 busts to exactly
credit 0. -/
theorem credit_nonneg_invariant_witness :
    creditsOk (Dealer.turn (Dealer.init [Gambler.init "A", Gambler.init "B"])
      (List.replicate 4 0)).2.1 ∧
    (Gambler.bust ⟨"G", GAMING, {tenSpades, tenHearts, twoClubs}, 9⟩).2.credit = 0 := by
  obtain ⟨h1, _, _, _, h5⟩ := credit_nonneg_invariant
    (Dealer.init [Gambler.init "A", Gambler.init "B"]) (List.replicate 4 0)
    ⟨"G", GAMING, {tenSpades, tenHearts, twoClubs}, 9⟩ .play .deal []
    (by constructor <;> decide) (by decide)
  exact ⟨h1, h5 rfl (by decide)⟩


end VinteUno
